import Mathlib

/-!
Verification of the ooohh persistence & aggregation service
(`pkg/service/service.go` together with the entity definitions of the
root `ooohh` package).

The service is embedded shallowly:

* A Go `time.Time` is a `Timestamp`: an instant together with a zone
  offset; `Timestamp.utc` models `time.Time.UTC()`, which keeps the
  instant and moves the location to UTC (offset 0).
* A `float64` dial value is only ever stored and returned verbatim by
  the service (never computed with), so it is modelled by an integer
  scalar; the literal `0.0` becomes `0`.
* A bolt bucket is an association list from keys to records; the
  msgpack codec round-trips every field (its load-bearing contract), so
  records are stored directly.  `bGet`/`bPut` model `Bucket.Get` and
  `Bucket.Put`.
* `context.Context` is reduced to the one bit the spec talks about: a
  `Ctx` flag saying whether the caller's cancellation signal is raised.
  The Go code accepts the context but never consults it, and the
  embedding mirrors that faithfully: the flag is a parameter of every
  operation and is unused in every body.
* The injected collaborators are explicit arguments: the clock's value
  at call time is the `now : Timestamp` argument, and the ksuid
  generator's output is the `newId : String` argument of the create
  operations.
* Each operation samples `now()` at most once and opens one
  transaction (GetBoard: one plus one per reference, via `GetDial`).
  A mutating operation returns its result together with the post-state
  of the store; the error branches return the pre-state unchanged,
  which is what `defer txn.Rollback()` does in the source.
* The observability sink of `GetBoard` is made a first-class value: the
  structured log entries (`logger.Errorw("GetDial error", "id", d.ID,
  "board", id, "err", err)`) are returned alongside the board.
-/

set_option linter.unusedVariables false

/-- A Go `time.Time`: an instant plus the reported zone offset. -/
structure Timestamp where
  instant : Int
  offset : Int
deriving DecidableEq, Repr

/-- `time.Time.UTC()`: same instant, location UTC. -/
def Timestamp.utc (t : Timestamp) : Timestamp :=
  { instant := t.instant, offset := 0 }

/-- The zero `time.Time` (Go zero value). -/
def Timestamp.zero : Timestamp :=
  { instant := 0, offset := 0 }

/-- `float64` dial values, stored and returned verbatim only. -/
abbrev Value := Int

/-- `ooohh.Dial`. -/
structure Dial where
  id : String
  token : String
  name : String
  value : Value
  updatedAt : Timestamp
deriving DecidableEq, Repr

/-- `ooohh.Board`; `dials` is the persisted reference list (`Dials []Dial`). -/
structure Board where
  id : String
  token : String
  name : String
  dials : List Dial
  updatedAt : Timestamp
deriving DecidableEq, Repr

/-- The domain error taxonomy of the root `ooohh` package. -/
inductive Err where
  | unauthorized
  | dialNotFound
  | boardNotFound
deriving DecidableEq, Repr

/-- The two bolt buckets the service initializes: "dials" and "boards". -/
structure DB where
  dials : List (String × Dial)
  boards : List (String × Board)
deriving DecidableEq, Repr

/-- The caller's cancellation signal (`context.Context`): `true` means raised. -/
abbrev Ctx := Bool

/-- `bolt.Bucket.Get`. -/
def bGet (k : String) : List (String × α) → Option α
  | [] => none
  | (k₁, v) :: rest => if k = k₁ then some v else bGet k rest

/-- `bolt.Bucket.Put`: replaces the value under the key. -/
def bPut (k : String) (v : α) : List (String × α) → List (String × α)
  | [] => [(k, v)]
  | (k₁, v₁) :: rest => if k = k₁ then (k, v) :: rest else (k₁, v₁) :: bPut k v rest

/-- One structured log entry of `GetBoard`'s per-dial failure path. -/
structure LogEntry where
  dialId : String
  boardId : String
  err : Err
deriving DecidableEq, Repr

/-- `Except.toOption`, kept local. -/
def okOpt : Except Err α → Option α
  | .ok a => some a
  | .error _ => none

/-- `service.CreateDial` (service.go): builds the dial with `value = 0.0`
and `updatedAt = s.now().UTC()`, stores it under the fresh id, returns it. -/
def CreateDial (ctx : Ctx) (db : DB) (newId : String) (now : Timestamp)
    (name token : String) : Dial × DB :=
  let d : Dial :=
    { id := newId, token := token, name := name, value := 0, updatedAt := now.utc }
  (d, { db with dials := bPut newId d db.dials })

/-- `service.GetDial` (service.go): read-only lookup in "dials";
`ErrDialNotFound` when absent, else the record with `UpdatedAt`
renormalized to UTC. -/
def GetDial (ctx : Ctx) (db : DB) (id : String) : Except Err Dial :=
  match bGet id db.dials with
  | none => .error .dialNotFound
  | some d => .ok { d with updatedAt := d.updatedAt.utc }

/-- `service.SetDial` (service.go): find the dial (`ErrDialNotFound` when
absent), check the token (`ErrUnauthorized` on mismatch), then overwrite
value and `UpdatedAt = s.now().UTC()` and store.  Error branches leave the
store as the rolled-back transaction does: unchanged. -/
def SetDial (ctx : Ctx) (db : DB) (now : Timestamp) (id token : String)
    (value : Value) : Except Err Unit × DB :=
  match bGet id db.dials with
  | none => (.error .dialNotFound, db)
  | some d =>
    if token ≠ d.token then
      (.error .unauthorized, db)
    else
      let d₁ := { d with value := value, updatedAt := now.utc }
      (.ok (), { db with dials := bPut id d₁ db.dials })

/-- `service.CreateBoard` (service.go): symmetric to `CreateDial`, with an
empty `Dials` list. -/
def CreateBoard (ctx : Ctx) (db : DB) (newId : String) (now : Timestamp)
    (name token : String) : Board × DB :=
  let b : Board :=
    { id := newId, token := token, name := name, dials := [], updatedAt := now.utc }
  (b, { db with boards := bPut newId b db.boards })

/-- The per-reference resolution loop of `service.GetBoard`: for each stored
reference in order, `s.GetDial(ctx, d.ID)`; successes are appended in order,
failures are logged with the dial id and the board id and skipped. -/
def resolveDials (ctx : Ctx) (db : DB) (boardId : String) : List Dial → List Dial × List LogEntry
  | [] => ([], [])
  | d :: rest =>
    let r := resolveDials ctx db boardId rest
    match GetDial ctx db d.id with
    | .error e => (r.1, ⟨d.id, boardId, e⟩ :: r.2)
    | .ok dial => (dial :: r.1, r.2)

/-- `service.GetBoard` (service.go): read-only lookup in "boards"
(`ErrBoardNotFound` when absent), then the resolution loop, then
`UpdatedAt` renormalized to UTC.  The log entries emitted to the
observability sink are returned as a first-class value. -/
def GetBoard (ctx : Ctx) (db : DB) (id : String) : Except Err (Board × List LogEntry) :=
  match bGet id db.boards with
  | none => .error .boardNotFound
  | some b =>
    let r := resolveDials ctx db id b.dials
    .ok ({ b with dials := r.1, updatedAt := b.updatedAt.utc }, r.2)

/-- The minimal reference record `ooohh.Dial{ID: dials[i]}` that
`service.SetBoard` stores: every field but the id is the Go zero value. -/
def minimalDial (id : String) : Dial :=
  { id := id, token := "", name := "", value := 0, updatedAt := Timestamp.zero }

/-- `service.SetBoard` (service.go): find the board (`ErrBoardNotFound`
when absent), check the token (`ErrUnauthorized` on mismatch), replace
`Dials` wholesale with minimal reference records, refresh
`UpdatedAt = s.now().UTC()`, store.  Error branches leave the store
unchanged (rollback). -/
def SetBoard (ctx : Ctx) (db : DB) (now : Timestamp) (id token : String)
    (dialIds : List String) : Except Err Unit × DB :=
  match bGet id db.boards with
  | none => (.error .boardNotFound, db)
  | some b =>
    if token ≠ b.token then
      (.error .unauthorized, db)
    else
      let allDials := dialIds.map minimalDial
      let b₁ := { b with dials := allDials, updatedAt := now.utc }
      (.ok (), { db with boards := bPut id b₁ db.boards })

/-! ### Basic lemmas about the store, timestamps and the resolution loop -/

theorem bGet_bPut_self (k : String) (v : α) (m : List (String × α)) :
    bGet k (bPut k v m) = some v := by
  induction m with
  | nil => simp [bGet, bPut]
  | cons hd tl ih =>
    obtain ⟨k₁, v₁⟩ := hd
    by_cases h : k = k₁ <;> simp [bGet, bPut, h, ih]

theorem bGet_bPut_ne (k k₁ : String) (v : α) (m : List (String × α)) (h : k ≠ k₁) :
    bGet k (bPut k₁ v m) = bGet k m := by
  induction m with
  | nil => simp [bGet, bPut, h]
  | cons hd tl ih =>
    obtain ⟨k₂, v₂⟩ := hd
    by_cases h₂ : k₁ = k₂
    · subst h₂; simp [bGet, bPut, h]
    · by_cases h₃ : k = k₂ <;> simp [bGet, bPut, h₂, h₃, ih]

theorem Timestamp.utc_utc (t : Timestamp) : t.utc.utc = t.utc := rfl

theorem Timestamp.utc_offset (t : Timestamp) : t.utc.offset = 0 := rfl

theorem dial_utc_self (d : Dial) (h : d.updatedAt.offset = 0) :
    { d with updatedAt := d.updatedAt.utc } = d := by
  obtain ⟨i, tk, nm, v, ⟨ti, tz⟩⟩ := d
  simp only [Timestamp.utc] at *
  simp_all

theorem resolveDials_fst (c : Ctx) (db : DB) (bid : String) (ds : List Dial) :
    (resolveDials c db bid ds).1 = ds.filterMap (fun d => okOpt (GetDial c db d.id)) := by
  induction ds with
  | nil => simp [resolveDials]
  | cons d rest ih =>
    simp only [resolveDials, List.filterMap_cons]
    cases hg : GetDial c db d.id <;> simp [okOpt, hg, ih]

theorem resolveDials_snd (c : Ctx) (db : DB) (bid : String) (ds : List Dial) :
    (resolveDials c db bid ds).2 = ds.filterMap (fun d =>
      match GetDial c db d.id with
      | .error e => some ⟨d.id, bid, e⟩
      | .ok _ => none) := by
  induction ds with
  | nil => simp [resolveDials]
  | cons d rest ih =>
    simp only [resolveDials, List.filterMap_cons]
    cases hg : GetDial c db d.id <;> simp [hg, ih]

theorem GetDial_ok_iff (c : Ctx) (db : DB) (id : String) (d : Dial) :
    GetDial c db id = .ok d ↔
      ∃ s, bGet id db.dials = some s ∧ d = { s with updatedAt := s.updatedAt.utc } := by
  unfold GetDial
  cases h : bGet id db.dials with
  | none => simp
  | some s =>
    constructor
    · intro he
      exact ⟨s, rfl, (Except.ok.injEq _ _ ▸ he.symm)⟩
    · rintro ⟨s₁, hs₁, rfl⟩
      simp only [Option.some.injEq] at hs₁
      subst hs₁
      rfl

theorem bGet_mem (k : String) (v : α) (m : List (String × α)) (h : bGet k m = some v) :
    (k, v) ∈ m := by
  induction m with
  | nil => simp [bGet] at h
  | cons hd tl ih =>
    obtain ⟨k₁, v₁⟩ := hd
    by_cases hk : k = k₁
    · subst hk
      simp [bGet] at h
      simp [h]
    · simp [bGet, hk] at h
      exact List.mem_cons_of_mem _ (ih h)

theorem keyed_bPut (m : List (String × Dial)) (hm : ∀ p ∈ m, (p.2).id = p.1)
    (k : String) (d : Dial) (hd : d.id = k) :
    ∀ p ∈ bPut k d m, (p.2).id = p.1 := by
  induction m with
  | nil => simp [bPut, hd]
  | cons hdp tl ih =>
    obtain ⟨k₁, v₁⟩ := hdp
    by_cases hk : k = k₁
    · subst hk
      simp only [bPut, if_pos rfl]
      intro p hp
      rcases List.mem_cons.mp hp with h₁ | h₁
      · subst h₁; exact hd
      · exact hm p (List.mem_cons_of_mem _ h₁)
    · simp only [bPut, if_neg hk]
      intro p hp
      rcases List.mem_cons.mp hp with h₁ | h₁
      · subst h₁; exact hm (k₁, v₁) (List.mem_cons_self _ _)
      · exact ih (fun q hq => hm q (List.mem_cons_of_mem _ hq)) p h₁

theorem GetBoard_ok (c : Ctx) (db : DB) (id : String) (b : Board)
    (h : bGet id db.boards = some b) :
    GetBoard c db id = .ok
      ({ b with
          dials := b.dials.filterMap (fun d => okOpt (GetDial c db d.id)),
          updatedAt := b.updatedAt.utc },
        b.dials.filterMap (fun d =>
          match GetDial c db d.id with
          | .error e => some ⟨d.id, id, e⟩
          | .ok _ => none)) := by
  unfold GetBoard
  rw [h]
  simp only [resolveDials_fst, resolveDials_snd]

theorem SetDial_boards_eq (c : Ctx) (db : DB) (now : Timestamp) (id token : String)
    (v : Value) : (SetDial c db now id token v).2.boards = db.boards := by
  unfold SetDial
  cases bGet id db.dials with
  | none => rfl
  | some d => by_cases h : token = d.token <;> simp [h]

theorem SetBoard_dials_eq (c : Ctx) (db : DB) (now : Timestamp) (id token : String)
    (ids : List String) : (SetBoard c db now id token ids).2.dials = db.dials := by
  unfold SetBoard
  cases bGet id db.boards with
  | none => rfl
  | some b => by_cases h : token = b.token <;> simp [h]

theorem GetDial_congr_dials (c c₁ : Ctx) (db db₁ : DB) (id : String)
    (h : db₁.dials = db.dials) : GetDial c₁ db₁ id = GetDial c db id := by
  unfold GetDial
  rw [h]

theorem filterMap_length_of_isSome {f : α → Option β} {l : List α}
    (h : ∀ a ∈ l, (f a).isSome) : (l.filterMap f).length = l.length := by
  induction l with
  | nil => rfl
  | cons a tl ih =>
    have ha := h a (List.mem_cons_self _ _)
    rw [List.filterMap_cons]
    cases hf : f a with
    | none => rw [hf] at ha; simp at ha
    | some b =>
      simp only [List.length_cons]
      rw [ih (fun x hx => h x (List.mem_cons_of_mem _ hx))]

/-! ### Concrete fixtures used by the witnesses -/

/-- A concrete dial stored under key "a". -/
def dialA : Dial :=
  { id := "a", token := "t", name := "A", value := 7, updatedAt := ⟨5, 0⟩ }

/-- A concrete board stored under key "B", referencing the existing dial "a"
and the missing dial "z". -/
def boardB : Board :=
  { id := "B", token := "bt", name := "Bd",
    dials := [minimalDial "a", minimalDial "z"], updatedAt := ⟨9, 60⟩ }

/-- A concrete store holding `dialA` and `boardB`. -/
def dbW : DB := { dials := [("a", dialA)], boards := [("B", boardB)] }

/-! ### Claim theorems -/

/-- Claim C6: for every name and token, `CreateDial` returns a Dial whose
value is 0.0, whose id is non-empty and is exactly the freshly generated
identifier, whose token equals the supplied token, and whose `updatedAt`
equals the injected clock's value at call time normalized to UTC; and it
persists exactly that record into the "dials" key space under its id,
touching nothing else. -/
theorem createDial_returns_and_persists_fresh_dial
    (c : Ctx) (db : DB) (newId : String) (now : Timestamp) (name token : String)
    (hfresh : newId ≠ "") :
    (CreateDial c db newId now name token).1.value = 0 ∧
    (CreateDial c db newId now name token).1.id = newId ∧
    (CreateDial c db newId now name token).1.id ≠ "" ∧
    (CreateDial c db newId now name token).1.token = token ∧
    (CreateDial c db newId now name token).1.name = name ∧
    (CreateDial c db newId now name token).1.updatedAt = now.utc ∧
    bGet newId (CreateDial c db newId now name token).2.dials
      = some (CreateDial c db newId now name token).1 ∧
    (∀ k, k ≠ newId →
      bGet k (CreateDial c db newId now name token).2.dials = bGet k db.dials) ∧
    (CreateDial c db newId now name token).2.boards = db.boards := by
  refine ⟨rfl, rfl, hfresh, rfl, rfl, rfl, ?_, ?_, rfl⟩
  · exact bGet_bPut_self ..
  · intro k hk
    exact bGet_bPut_ne _ _ _ _ hk

/-- Witness for C6 at a concrete input. -/
theorem createDial_returns_and_persists_fresh_dial_witness :
    ("d1" : String) ≠ "" ∧
    (CreateDial false ⟨[], []⟩ "d1" ⟨10, 60⟩ "nm" "tk").1.value = 0 :=
  ⟨by decide,
   (createDial_returns_and_persists_fresh_dial false ⟨[], []⟩ "d1" ⟨10, 60⟩
      "nm" "tk" (by decide)).1⟩

/-- Claim C7: immediately fetching a freshly created dial succeeds and
returns a record equal in every field to the one returned at creation. -/
theorem getDial_after_createDial_roundtrip
    (c c₁ : Ctx) (db : DB) (newId : String) (now : Timestamp) (name token : String) :
    GetDial c₁ (CreateDial c db newId now name token).2 newId
      = .ok (CreateDial c db newId now name token).1 := by
  unfold GetDial
  rw [show (CreateDial c db newId now name token).2.dials
        = bPut newId (CreateDial c db newId now name token).1 db.dials from rfl,
      bGet_bPut_self]
  rfl

/-- Claim C8: every timestamp returned by any of the six operations is in
UTC (offset 0) regardless of the zone offset the injected clock reports:
the create operations normalize `now()` on write, and `GetDial`/`GetBoard`
renormalize the deserialized `updatedAt` on every read (`GetBoard` both for
the board and for every resolved dial).  `SetDial`/`SetBoard` return no
timestamps. -/
theorem returned_timestamps_are_utc
    (c : Ctx) (db : DB) (newId : String) (now : Timestamp) (name token id : String) :
    (CreateDial c db newId now name token).1.updatedAt.offset = 0 ∧
    (CreateBoard c db newId now name token).1.updatedAt.offset = 0 ∧
    (∀ d, GetDial c db id = .ok d → d.updatedAt.offset = 0) ∧
    (∀ b logs, GetBoard c db id = .ok (b, logs) →
      b.updatedAt.offset = 0 ∧ ∀ d ∈ b.dials, d.updatedAt.offset = 0) := by
  refine ⟨rfl, rfl, ?_, ?_⟩
  · intro d hd
    obtain ⟨s, _, rfl⟩ := (GetDial_ok_iff c db id d).mp hd
    rfl
  · intro b logs hb
    unfold GetBoard at hb
    cases hbb : bGet id db.boards with
    | none => rw [hbb] at hb; cases hb
    | some b₀ =>
      rw [hbb] at hb
      simp only [Except.ok.injEq, Prod.mk.injEq] at hb
      obtain ⟨hb₁, hb₂⟩ := hb
      subst hb₁
      refine ⟨rfl, ?_⟩
      intro d hd
      simp only [resolveDials_fst] at hd
      obtain ⟨x, hx, hok⟩ := List.mem_filterMap.mp hd
      cases hg : GetDial c db x.id with
      | error e => rw [hg] at hok; cases hok
      | ok dd =>
        rw [hg] at hok
        simp only [okOpt, Option.some.injEq] at hok
        subst hok
        obtain ⟨s, _, rfl⟩ := (GetDial_ok_iff c db x.id dd).mp hg
        rfl

/-- Witness for C8 at a concrete input. -/
theorem returned_timestamps_are_utc_witness :
    (CreateDial false dbW "d1" ⟨3, 120⟩ "n" "t").1.updatedAt.offset = 0 :=
  (returned_timestamps_are_utc false dbW "d1" ⟨3, 120⟩ "n" "t" "a").1

/-- Claim C4: the existence check strictly precedes the authorization
check: `SetDial` fails with `DialNotFound` exactly when the id is absent
(whatever the token, wrong ones included), and fails with `Unauthorized`
exactly when the dial exists and the supplied token is not string-equal
to the stored one; symmetrically for `SetBoard` with `BoardNotFound`. -/
theorem existence_check_precedes_authorization
    (c : Ctx) (db : DB) (now : Timestamp) (id token : String) (v : Value)
    (ids : List String) :
    ((SetDial c db now id token v).1 = .error .dialNotFound ↔
      bGet id db.dials = none) ∧
    ((SetDial c db now id token v).1 = .error .unauthorized ↔
      ∃ d, bGet id db.dials = some d ∧ token ≠ d.token) ∧
    ((SetBoard c db now id token ids).1 = .error .boardNotFound ↔
      bGet id db.boards = none) ∧
    ((SetBoard c db now id token ids).1 = .error .unauthorized ↔
      ∃ b, bGet id db.boards = some b ∧ token ≠ b.token) := by
  refine ⟨?_, ?_, ?_, ?_⟩
  · unfold SetDial
    cases h : bGet id db.dials with
    | none => simp
    | some d => by_cases ht : token = d.token <;> simp [ht]
  · unfold SetDial
    cases h : bGet id db.dials with
    | none => simp
    | some d => by_cases ht : token = d.token <;> simp [ht]
  · unfold SetBoard
    cases h : bGet id db.boards with
    | none => simp
    | some b => by_cases ht : token = b.token <;> simp [ht]
  · unfold SetBoard
    cases h : bGet id db.boards with
    | none => simp
    | some b => by_cases ht : token = b.token <;> simp [ht]

/-- Witness for C4 at a concrete input: wrong token against a missing dial
still reports `DialNotFound`, and a wrong token against the existing dial
reports `Unauthorized`. -/
theorem existence_check_precedes_authorization_witness :
    (SetDial false dbW ⟨0, 0⟩ "x" "wrong" 5).1 = .error .dialNotFound ∧
    (SetDial false dbW ⟨0, 0⟩ "a" "wrong" 5).1 = .error .unauthorized :=
  ⟨(existence_check_precedes_authorization false dbW ⟨0, 0⟩ "x" "wrong" 5 []).1.mpr
      (by decide),
   (existence_check_precedes_authorization false dbW ⟨0, 0⟩ "a" "wrong" 5 []).2.1.mpr
      ⟨dialA, by decide, by decide⟩⟩

/-- Claim C5: a `SetDial` that fails (with any error) leaves the store —
in particular the persisted dial record, every field included — exactly
as before the call, mirroring the rolled-back transaction; likewise a
failed `SetBoard` leaves the board unchanged. -/
theorem failed_set_leaves_store_unchanged
    (c : Ctx) (db : DB) (now : Timestamp) (id token : String) (v : Value)
    (ids : List String) (e e₁ : Err) :
    ((SetDial c db now id token v).1 = .error e →
      (SetDial c db now id token v).2 = db) ∧
    ((SetBoard c db now id token ids).1 = .error e₁ →
      (SetBoard c db now id token ids).2 = db) := by
  constructor
  · intro h
    unfold SetDial at h ⊢
    cases hg : bGet id db.dials with
    | none => simp [hg]
    | some d =>
      simp only [hg] at h ⊢
      by_cases ht : token = d.token
      · simp [ht] at h
      · simp [ht]
  · intro h
    unfold SetBoard at h ⊢
    cases hg : bGet id db.boards with
    | none => simp [hg]
    | some b =>
      simp only [hg] at h ⊢
      by_cases ht : token = b.token
      · simp [ht] at h
      · simp [ht]

/-- Witness for C5 at a concrete input: an unauthorized `SetDial` and a
not-found `SetBoard` both leave the store untouched. -/
theorem failed_set_leaves_store_unchanged_witness :
    (SetDial false dbW ⟨11, 0⟩ "a" "wrong" 5).2 = dbW ∧
    (SetBoard false dbW ⟨11, 0⟩ "nope" "bt" ["a"]).2 = dbW :=
  ⟨(failed_set_leaves_store_unchanged false dbW ⟨11, 0⟩ "a" "wrong" 5 ["a"]
      .unauthorized .boardNotFound).1 rfl,
   (failed_set_leaves_store_unchanged false dbW ⟨11, 0⟩ "nope" "bt" 5 ["a"]
      .unauthorized .boardNotFound).2 rfl⟩

/-- Claim C1: for every board id present in the "boards" key space,
`GetBoard` succeeds, resolving each stored dial reference through `GetDial`
in stored order: every successful lookup contributes its fully resolved
dial to the result's dials sequence in the original reference order, every
failed lookup is omitted and reported to the observability sink with the
failing dial id and the board id, and no per-reference failure makes the
overall call fail.  `GetBoard` is a pure function of the store (it opens
only read-only transactions), so the board's persisted reference list is
untouched by construction. -/
theorem getBoard_resolves_in_order_skipping_failures
    (c : Ctx) (db : DB) (id : String) (b : Board)
    (h : bGet id db.boards = some b) :
    GetBoard c db id = .ok
      ({ b with
          dials := b.dials.filterMap (fun d => okOpt (GetDial c db d.id)),
          updatedAt := b.updatedAt.utc },
        b.dials.filterMap (fun d =>
          match GetDial c db d.id with
          | .error e => some ⟨d.id, id, e⟩
          | .ok _ => none)) :=
  GetBoard_ok c db id b h

/-- Witness for C1 at a concrete input: board "B" references the existing
dial "a" and the missing dial "z"; the call succeeds, returns the one
resolved dial, and logs the failure for "z" against board "B". -/
theorem getBoard_resolves_in_order_skipping_failures_witness :
    bGet "B" dbW.boards = some boardB ∧
    GetBoard false dbW "B" = .ok
      ({ boardB with
          dials := boardB.dials.filterMap (fun d => okOpt (GetDial false dbW d.id)),
          updatedAt := boardB.updatedAt.utc },
        boardB.dials.filterMap (fun d =>
          match GetDial false dbW d.id with
          | .error e => some ⟨d.id, "B", e⟩
          | .ok _ => none)) :=
  ⟨rfl, getBoard_resolves_in_order_skipping_failures false dbW "B" boardB rfl⟩

/-- The invariant of claim C3: every persisted board's reference list holds
only dial identifiers — token, name, value and timestamp of each stored
reference record are Go zero values. -/
def BoardsRefsOnly (db : DB) : Prop :=
  ∀ k b, bGet k db.boards = some b →
    ∀ d ∈ b.dials, d.token = "" ∧ d.name = "" ∧ d.value = 0 ∧
      d.updatedAt = Timestamp.zero

/-- Claim C3: `SetBoard` with a correct token succeeds for an arbitrary
identifier sequence (no validation against the dials bucket, whose contents
it also leaves untouched), replacing the persisted reference list wholesale
with the supplied ordered identifiers, each stored as a record carrying
only the identifier; and the refs-only invariant is preserved by every
mutating operation, so a board's persisted state never contains a dial's
value. -/
theorem setBoard_wholesale_replace_refs_only
    (c : Ctx) (db : DB) (now : Timestamp) (id token : String) (dialIds : List String)
    (b : Board) (hb : bGet id db.boards = some b) (ht : token = b.token)
    (hinv : BoardsRefsOnly db) :
    (SetBoard c db now id token dialIds).1 = .ok () ∧
    bGet id (SetBoard c db now id token dialIds).2.boards
      = some { b with dials := dialIds.map minimalDial, updatedAt := now.utc } ∧
    (SetBoard c db now id token dialIds).2.dials = db.dials ∧
    BoardsRefsOnly (SetBoard c db now id token dialIds).2 ∧
    (∀ nid nm tk, BoardsRefsOnly (CreateDial c db nid now nm tk).2) ∧
    (∀ nid nm tk, BoardsRefsOnly (CreateBoard c db nid now nm tk).2) ∧
    (∀ i tk vv, BoardsRefsOnly (SetDial c db now i tk vv).2) := by
  have hrepl : (SetBoard c db now id token dialIds)
      = (.ok (), { db with boards := bPut id { b with dials := dialIds.map minimalDial, updatedAt := now.utc } db.boards }) := by
    unfold SetBoard
    rw [hb]
    simp [ht]
  refine ⟨by rw [hrepl], ?_, by rw [hrepl], ?_, ?_, ?_, ?_⟩
  · rw [hrepl]
    exact bGet_bPut_self ..
  · rw [hrepl]
    intro k b₂ hk d hd
    by_cases hkid : k = id
    · subst hkid
      rw [bGet_bPut_self] at hk
      obtain rfl := Option.some.injEq .. ▸ hk
      simp only at hd
      obtain ⟨i, hi, rfl⟩ := List.mem_map.mp hd
      exact ⟨rfl, rfl, rfl, rfl⟩
    · rw [bGet_bPut_ne _ _ _ _ hkid] at hk
      exact hinv k b₂ hk d hd
  · intro nid nm tk k b₂ hk d hd
    exact hinv k b₂ hk d hd
  · intro nid nm tk k b₂ hk d hd
    by_cases hkid : k = nid
    · subst hkid
      rw [show (CreateBoard c db k now nm tk).2.boards
            = bPut k (CreateBoard c db k now nm tk).1 db.boards from rfl,
          bGet_bPut_self] at hk
      obtain rfl := Option.some.injEq .. ▸ hk
      cases hd
    · rw [show (CreateBoard c db nid now nm tk).2.boards
            = bPut nid (CreateBoard c db nid now nm tk).1 db.boards from rfl,
          bGet_bPut_ne _ _ _ _ hkid] at hk
      exact hinv k b₂ hk d hd
  · intro i tk vv k b₂ hk d hd
    rw [SetDial_boards_eq] at hk
    exact hinv k b₂ hk d hd

/-- Witness for C3 at a concrete input: replacing board "B"'s references
with ["x", "a"] (the dial "x" does not exist, yet the call succeeds). -/
theorem setBoard_wholesale_replace_refs_only_witness :
    bGet "B" dbW.boards = some boardB ∧ ("bt" : String) = boardB.token ∧
    BoardsRefsOnly dbW ∧
    bGet "B" (SetBoard false dbW ⟨20, 0⟩ "B" "bt" ["x", "a"]).2.boards
      = some { boardB with dials := ["x", "a"].map minimalDial, updatedAt := Timestamp.utc ⟨20, 0⟩ } := by
  have hinv : BoardsRefsOnly dbW := by
    intro k b hk d hd
    by_cases h₁ : k = "B"
    · subst h₁
      simp only [dbW, bGet, if_pos rfl] at hk
      obtain rfl := Option.some.injEq .. ▸ hk
      simp only [boardB, minimalDial, List.mem_cons] at hd
      rcases hd with rfl | hd
      · exact ⟨rfl, rfl, rfl, rfl⟩
      · rcases hd with rfl | hd
        · exact ⟨rfl, rfl, rfl, rfl⟩
        · cases hd
    · simp only [dbW, bGet, if_neg h₁] at hk
      cases hk
  exact ⟨rfl, rfl, hinv,
    (setBoard_wholesale_replace_refs_only false dbW ⟨20, 0⟩ "B" "bt" ["x", "a"]
      boardB rfl rfl hinv).2.1⟩

theorem resolveDials_ctx_irrel (c c₁ : Ctx) (db : DB) (bid : String) (ds : List Dial) :
    resolveDials c db bid ds = resolveDials c₁ db bid ds := by
  induction ds with
  | nil => rfl
  | cons d rest ih =>
    unfold resolveDials
    rw [ih]
    rfl

/-- Counterexample to claim C9: with the cancellation signal already raised
(`true`), `SetDial` still succeeds and commits its write — the post-state
differs from the pre-state — so the operations neither check the signal
before starting a transaction nor refrain from committing when it is
raised.  (In the source every operation receives `ctx context.Context`
and never consults it.) -/
theorem cancelled_setDial_still_commits :
    (SetDial true dbW ⟨100, 0⟩ "a" "t" 9).1 = .ok () ∧
    (SetDial true dbW ⟨100, 0⟩ "a" "t" 9).2 ≠ dbW := by
  refine ⟨rfl, ?_⟩
  decide

/-- Claim C9 (amended): every operation accepts the caller's cancellation
signal but never consults it — result and post-state are identical whether
or not the signal is raised — so a raised signal does not prevent the
transaction or its commit. -/
theorem operations_ignore_cancellation
    (c c₁ : Ctx) (db : DB) (newId : String) (now : Timestamp)
    (name token id : String) (v : Value) (ids : List String) :
    CreateDial c db newId now name token = CreateDial c₁ db newId now name token ∧
    GetDial c db id = GetDial c₁ db id ∧
    SetDial c db now id token v = SetDial c₁ db now id token v ∧
    CreateBoard c db newId now name token = CreateBoard c₁ db newId now name token ∧
    GetBoard c db id = GetBoard c₁ db id ∧
    SetBoard c db now id token ids = SetBoard c₁ db now id token ids := by
  refine ⟨rfl, rfl, rfl, rfl, ?_, rfl⟩
  unfold GetBoard
  cases bGet id db.boards with
  | none => rfl
  | some b =>
    dsimp only
    rw [resolveDials_ctx_irrel c c₁]

/-- Claim C10: duplicates survive end to end: `SetBoard` stores one
reference per occurrence of each supplied identifier, in the supplied
order (no deduplication), and the subsequent `GetBoard` resolves one copy
per occurrence, in sequence order (when every referenced dial exists, the
resolved list has exactly one entry per occurrence). -/
theorem duplicates_preserved_end_to_end
    (c c₁ : Ctx) (db : DB) (now : Timestamp) (B token : String)
    (dialIds : List String) (b : Board)
    (hb : bGet B db.boards = some b) (ht : token = b.token)
    (hdup : ¬ dialIds.Nodup) :
    (SetBoard c db now B token dialIds).1 = .ok () ∧
    (∃ b₁, bGet B (SetBoard c db now B token dialIds).2.boards = some b₁ ∧
      b₁.dials.map Dial.id = dialIds) ∧
    (∃ b₂ logs, GetBoard c₁ (SetBoard c db now B token dialIds).2 B = .ok (b₂, logs) ∧
      b₂.dials = dialIds.filterMap (fun i => okOpt (GetDial c₁ db i)) ∧
      ((∀ i ∈ dialIds, ∃ d, bGet i db.dials = some d) →
        b₂.dials.length = dialIds.length)) := by
  have hset : SetBoard c db now B token dialIds
      = (.ok (), { db with boards := bPut B { b with dials := dialIds.map minimalDial, updatedAt := now.utc } db.boards }) := by
    unfold SetBoard
    rw [hb]
    simp [ht]
  have hmapid : ∀ l : List String, (l.map minimalDial).map Dial.id = l := by
    intro l
    induction l with
    | nil => rfl
    | cons a tl ih => simp [minimalDial, ih]
  have hfm : ∀ db₁ : DB, db₁.dials = db.dials →
      (dialIds.map minimalDial).filterMap (fun d => okOpt (GetDial c₁ db₁ d.id))
        = dialIds.filterMap (fun i => okOpt (GetDial c₁ db i)) := by
    intro db₁ hdl
    rw [List.filterMap_map]
    congr 1
    funext i
    show okOpt (GetDial c₁ db₁ i) = okOpt (GetDial c₁ db i)
    rw [GetDial_congr_dials c₁ c₁ db db₁ i hdl]
  refine ⟨by rw [hset], ?_, ?_⟩
  · rw [hset]
    exact ⟨_, bGet_bPut_self .., hmapid dialIds⟩
  · rw [hset]
    refine ⟨_, _, GetBoard_ok c₁ _ B _ (bGet_bPut_self ..), ?_, ?_⟩
    · exact hfm _ rfl
    · intro hex
      have hlen : (dialIds.filterMap (fun i => okOpt (GetDial c₁ db i))).length
          = dialIds.length := by
        apply filterMap_length_of_isSome
        intro i hi
        obtain ⟨d, hdi⟩ := hex i hi
        unfold GetDial
        rw [hdi]
        rfl
      exact (congrArg List.length (hfm _ rfl)).trans hlen

/-- Witness for C10 at a concrete input: the duplicate list ["a", "a"]. -/
theorem duplicates_preserved_end_to_end_witness :
    (SetBoard false dbW ⟨30, 0⟩ "B" "bt" ["a", "a"]).1 = .ok () :=
  (duplicates_preserved_end_to_end false false dbW ⟨30, 0⟩ "B" "bt" ["a", "a"]
    boardB rfl rfl (by decide)).1

/-- Claim C2: for a board B referencing an existing dial A (as a prior
`SetBoard` leaves it), a successful `SetDial(A, token, v)` is reflected in
the next `GetBoard(B)` without any intervening `SetBoard`: the call
succeeds, the updated record for A (with value v) appears among the
returned dials, every returned entry whose id is A carries value v, and
B's stored record is untouched — its returned `updatedAt` is still B's
own, only UTC-normalized.  The hypothesis `hwf` is the store invariant,
maintained by the service, that each dial record sits under its own id. -/
theorem setDial_visible_in_next_getBoard
    (c c₁ : Ctx) (db : DB) (now : Timestamp) (B A tA : String) (v : Value)
    (b : Board) (d₀ : Dial)
    (hwf : ∀ p ∈ db.dials, (p.2).id = p.1)
    (hb : bGet B db.boards = some b)
    (hd : bGet A db.dials = some d₀)
    (ht : tA = d₀.token)
    (href : A ∈ b.dials.map Dial.id) :
    (SetDial c db now A tA v).1 = .ok () ∧
    bGet B (SetDial c db now A tA v).2.boards = some b ∧
    (∃ b₁ logs, GetBoard c₁ (SetDial c db now A tA v).2 B = .ok (b₁, logs) ∧
      b₁.updatedAt = b.updatedAt.utc ∧
      ({ d₀ with value := v, updatedAt := now.utc } : Dial) ∈ b₁.dials ∧
      (∀ d ∈ b₁.dials, d.id = A → d.value = v)) := by
  have hset : SetDial c db now A tA v
      = (.ok (), { db with dials := bPut A { d₀ with value := v, updatedAt := now.utc } db.dials }) := by
    unfold SetDial
    rw [hd]
    simp [ht]
  have hida : ({ d₀ with value := v, updatedAt := now.utc } : Dial).id = A :=
    hwf (A, d₀) (bGet_mem A d₀ db.dials hd)
  have hwf₁ : ∀ p ∈ bPut A ({ d₀ with value := v, updatedAt := now.utc } : Dial) db.dials,
      (p.2).id = p.1 :=
    keyed_bPut db.dials hwf A _ hida
  have hgd : GetDial c₁
      ({ db with dials := bPut A ({ d₀ with value := v, updatedAt := now.utc } : Dial) db.dials } : DB) A
      = .ok ({ d₀ with value := v, updatedAt := now.utc } : Dial) := by
    unfold GetDial
    dsimp only
    rw [bGet_bPut_self]
    rfl
  refine ⟨by rw [hset], ?_, ?_⟩
  · rw [hset]
    exact hb
  · rw [hset]
    refine ⟨_, _, GetBoard_ok c₁ _ B b hb, rfl, ?_, ?_⟩
    · obtain ⟨dref, hdref, hrefid⟩ := List.mem_map.mp href
      refine List.mem_filterMap.mpr ⟨dref, hdref, ?_⟩
      dsimp only
      rw [hrefid, hgd]
      rfl
    · intro d hdm hdid
      obtain ⟨dref, hdref, hok⟩ := List.mem_filterMap.mp hdm
      cases hg : GetDial c₁
          ({ db with dials := bPut A ({ d₀ with value := v, updatedAt := now.utc } : Dial) db.dials } : DB)
          dref.id with
      | error e =>
        rw [hg] at hok
        cases hok
      | ok dd =>
        rw [hg] at hok
        simp only [okOpt, Option.some.injEq] at hok
        subst hok
        obtain ⟨s, hs, rfl⟩ := (GetDial_ok_iff c₁ _ dref.id _).mp hg
        have hsid : s.id = dref.id := hwf₁ (dref.id, s) (bGet_mem dref.id s _ hs)
        have hsA : s.id = A := hdid
        have hdrefA : dref.id = A := hsid ▸ hsA
        have h₂ : bGet A (bPut A ({ d₀ with value := v, updatedAt := now.utc } : Dial) db.dials)
            = some s := hdrefA ▸ hs
        rw [bGet_bPut_self] at h₂
        injection h₂ with h₃
        show ({ s with updatedAt := s.updatedAt.utc } : Dial).value = v
        rw [← h₃]

/-- Witness for C2 at a concrete input: board "B" references dial "a";
after `SetDial("a", "t", 42)` the next `GetBoard("B")` returns the updated
record among its dials. -/
theorem setDial_visible_in_next_getBoard_witness :
    (SetDial false dbW ⟨50, 0⟩ "a" "t" 42).1 = .ok () ∧
    (∃ b₁ logs, GetBoard false (SetDial false dbW ⟨50, 0⟩ "a" "t" 42).2 "B" = .ok (b₁, logs) ∧
      b₁.updatedAt = boardB.updatedAt.utc ∧
      ({ dialA with value := 42, updatedAt := Timestamp.utc ⟨50, 0⟩ } : Dial) ∈ b₁.dials ∧
      (∀ d ∈ b₁.dials, d.id = "a" → d.value = 42)) := by
  have h := setDial_visible_in_next_getBoard false false dbW ⟨50, 0⟩ "B" "a" "t" 42
    boardB dialA (by decide) rfl rfl rfl (by decide)
  exact ⟨h.1, h.2.2⟩
